import Mathlib

/-!
Shallow embedding of `rxdump` (src/main.rs): a hex-dump utility that reads a
file in 16-byte windows, elides repeated all-zero windows, and renders each
kept window as an offset / hex / ASCII line.  Bytes are modelled as `Nat`
(u8 values are < 256), the open file as the `List Nat` of bytes remaining
after the initial seek, and the read loop of `main` as a step function on an
explicit state record.  Rust `usize` arithmetic that cannot overflow or
underflow on the executed paths is modelled as plain `Nat` arithmetic; the
theorems that quantify over states carry the hypotheses that keep the model
on those paths.
-/

namespace Rxdump

/-- `const LINE_BYTES: usize = 16;` -/
def LINE_BYTES : Nat := 16

/-- `let line_words: usize = LINE_BYTES / word_size;` (unguarded division,
computed at the top of `main` before any argument validation or I/O). -/
def line_words (word_size : Nat) : Nat := LINE_BYTES / word_size

/-- `let hex_length: usize = word_size * 2 * line_words + line_words;` -/
def hex_length_of (word_size : Nat) : Nat :=
  word_size * 2 * line_words word_size + line_words word_size

/-- `struct Line` of src/main.rs. -/
structure Line where
  ascii : String
  hex : String
  start_offset : Nat
  hex_length : Nat
deriving DecidableEq, Repr

/-- One lowercase hexadecimal digit, as produced by Rust `format!` with the
`x` conversion. -/
def hexDigitChar (n : Nat) : Char :=
  if n < 10 then Char.ofNat (48 + n) else Char.ofNat (87 + n)

/-- Digits of `n` in base 16, most significant first; `fuel`-structured so the
definition evaluates in the kernel (`fuel ≥ n` suffices, and callers pass
`fuel = n`). Empty for `n = 0`. -/
def toHexCore : Nat → Nat → List Char
  | 0, _ => []
  | fuel + 1, n =>
    if n = 0 then [] else toHexCore fuel (n / 16) ++ [hexDigitChar (n % 16)]

/-- Lowercase hexadecimal rendering of `n`, as Rust `format!` with `{:x}`. -/
def natToHex (n : Nat) : String :=
  if n = 0 then "0" else String.mk (toHexCore n n)

/-- Left-pad `s` with `c` up to width `w` (Rust zero-padded numeric formats). -/
def padLeft (c : Char) (w : Nat) (s : String) : String :=
  String.mk (List.replicate (w - s.length) c) ++ s

/-- Rust `format!` `{:08x}`: lowercase hex, zero-padded to at least 8 digits. -/
def hex8 (n : Nat) : String := padLeft '0' 8 (natToHex n)

/-- Rust `format!` `{:02x}` applied to a `u8` value (`b < 256`): exactly two
zero-padded lowercase hex digits. -/
def byteHex (b : Nat) : String :=
  String.mk [hexDigitChar (b / 16 % 16), hexDigitChar (b % 16)]

/-- Concatenation of a list of strings (the `+=` accumulation loops of
`word_as_hex`, `word_as_ascii` and `build_line`; `++` is associative with
identity `""`, so the fold direction does not matter). -/
def strConcat (l : List String) : String := l.foldr (· ++ ·) ""

/-- `word_as_hex`: concatenation of the two-digit hex of each byte. -/
def word_as_hex (word : List Nat) : String :=
  strConcat (word.map byteHex)

/-- The per-byte branch of `word_as_ascii`:
`if *b >= 0x20 && *b < 0x7f { b as char } else { '.' }`. -/
def asciiChar (b : Nat) : Char :=
  if 0x20 ≤ b ∧ b < 0x7f then Char.ofNat b else '.'

/-- `word_as_ascii`: printable bytes as themselves, the rest as `.`. -/
def word_as_ascii (word : List Nat) : String :=
  String.mk (word.map asciiChar)

/-- `all_zero`: `line.iter().position(|&x| x != 0) == None`. -/
def all_zero (line : List Nat) : Bool :=
  (line.findIdx? fun x => x != 0) == none

/-- Rust `slice::chunks(ws)` on a list, `fuel`-structured so it evaluates in
the kernel; `fuel ≥ l.length` suffices since every round drops `ws ≥ 1`
elements off a then-nonempty list. -/
def chunksCore (ws : Nat) : Nat → List Nat → List (List Nat)
  | 0, _ => []
  | _, [] => []
  | fuel + 1, l => l.take ws :: chunksCore ws fuel (l.drop ws)

/-- `buf.chunks(ws)`: consecutive groups of `ws` bytes, last possibly short.
Rust panics when `ws = 0`; the program never reaches `chunks` with `ws = 0`
because `LINE_BYTES / word_size` in `main` has already panicked (see
`mainModel`), so that case is mapped to `[]`. -/
def chunks (ws : Nat) (l : List Nat) : List (List Nat) :=
  if ws = 0 then [] else chunksCore ws l.length l

/-- `build_line`: iterate over the first `n` bytes of the buffer in
`word_size`-byte chunks, appending each chunk's hex (followed by a space
whenever the chunk index `i` satisfies `i < n`, which always holds) and its
ASCII rendering. -/
def build_line (end_offset : Nat) (buf : List Nat) (n word_size hex_length : Nat) :
    Line :=
  let ws := chunks word_size (buf.take n)
  { hex := strConcat (ws.enum.map fun p =>
      word_as_hex p.2 ++ if p.1 < n then " " else ""),
    ascii := strConcat (ws.map word_as_ascii),
    start_offset := end_offset - n,
    hex_length := hex_length }

/-- `Line::print`: `println!("{:08x}  {: <hexlen$} |{}|", start_offset, hex,
ascii, hex_length)` — the rendered text of one data line. -/
def Line.render (l : Line) : String :=
  hex8 l.start_offset ++ "  " ++
    (l.hex ++ String.mk (List.replicate (l.hex_length - l.hex.length) ' ')) ++
    " |" ++ l.ascii ++ "|"

/-- Configuration fixed before the read loop: word size, whether all-zero
windows are suppressed (`!cli.show_empty_lines`), and the byte limit
(`0` = unbounded). -/
structure Cfg where
  wordSize : Nat
  skipZero : Bool
  limit : Nat
deriving DecidableEq, Repr

/-- Mutable state of the read loop of `main`: the bytes not yet read (after
the initial seek), the 16-byte read buffer (stale bytes persist across
iterations), the cumulative offset, `last_was_all_zero`, and
`skipped_lines`. -/
structure S where
  stream : List Nat
  buffer : List Nat
  offset : Nat
  lastAllZero : Bool
  skipped : Nat
deriving DecidableEq, Repr

/-- What one loop iteration prints to standard output. -/
inductive Event where
  /-- A rendered data line. -/
  | line (l : Line)
  /-- The `*` marker: one or more elided all-zero lines. -/
  | star
  /-- The `**` marker: not at natural start / end of stream. -/
  | dstar
deriving DecidableEq, Repr

/-- Number of bytes `f.read(&mut buffer)` returns: a file read delivers
`min (buffer length) (bytes remaining)`. -/
def readN (s : S) : Nat := min s.buffer.length s.stream.length

/-- Buffer contents after the read: the first `readN` bytes are overwritten
with the next stream bytes, the rest keep their stale values. -/
def afterRead (s : S) : List Nat :=
  s.stream.take (readN s) ++ s.buffer.drop (readN s)

/-- `if limit != 0 && (offset + n) >= limit { n = limit - offset }`:
the displayed byte count after limit truncation. -/
def truncN (cfg : Cfg) (s : S) : Nat :=
  if cfg.limit ≠ 0 ∧ cfg.limit ≤ s.offset + readN s then cfg.limit - s.offset
  else readN s

/-- `is_all_zero && last_was_all_zero && (n == buffer.len())`: the guard of
the `continue` that elides a window. `is_all_zero` is
`skip_zero_lines && all_zero(&buffer)` over the whole 16-byte buffer. -/
def elideCond (cfg : Cfg) (s : S) : Bool :=
  (cfg.skipZero && all_zero (afterRead s)) && s.lastAllZero &&
    (truncN cfg s == (afterRead s).length)

/-- Result of one loop iteration: `halt` leaves the loop (after printing
`outs`), `cont` goes around again. -/
inductive StepRes where
  | halt (outs : List Event)
  | cont (outs : List Event) (s : S)
deriving DecidableEq, Repr

/-- The events an iteration printed. -/
def outsOf : StepRes → List Event
  | .halt outs => outs
  | .cont outs _ => outs

/-- One iteration of the `loop` in `main` (src/main.rs lines 105–142):
read; break when the read is empty and no elision run is pending; truncate at
the limit; either elide the window (incrementing `skipped_lines`) or print a
pending `*` marker, print the line, update `last_was_all_zero`, and break
with `**` when the offset has hit the limit. -/
def step (cfg : Cfg) (s : S) : StepRes :=
  if readN s = 0 ∧ s.skipped = 0 then .halt []
  else if elideCond cfg s then
    .cont [] { s with
      stream := s.stream.drop (readN s)
      buffer := afterRead s
      offset := s.offset + truncN cfg s
      skipped := s.skipped + 1 }
  else
    let offN := s.offset + truncN cfg s
    let l := build_line offN (afterRead s) (truncN cfg s) cfg.wordSize
      (hex_length_of cfg.wordSize)
    let starOuts := if 0 < s.skipped then [Event.star] else []
    if offN = cfg.limit then .halt (starOuts ++ [Event.line l, Event.dstar])
    else .cont (starOuts ++ [Event.line l])
      { stream := s.stream.drop (readN s)
        buffer := afterRead s
        offset := offN
        lastAllZero := cfg.skipZero && all_zero (afterRead s)
        skipped := 0 }

/-- Run the loop for at most `fuel` iterations, collecting printed events;
the Bool records whether the loop terminated within the fuel. -/
def runLoop (cfg : Cfg) : Nat → S → List Event × Bool
  | 0, _ => ([], false)
  | fuel + 1, s =>
    match step cfg s with
    | .halt outs => (outs, true)
    | .cont outs t =>
      let r := runLoop cfg fuel t
      (outs ++ r.1, r.2)

/-- Loop state right after `main`'s setup: the buffer is `[0; LINE_BYTES]`,
the offset counter starts at the seek position (0 when no offset was given),
and the readable bytes are the file contents past the seek position. -/
def initState (seekPos : Nat) (file : List Nat) : S :=
  { stream := file.drop seekPos
    buffer := List.replicate LINE_BYTES 0
    offset := seekPos
    lastAllZero := false
    skipped := 0 }

/-- States of the loop reachable from `s₀` by `cont` steps. -/
inductive Reach (cfg : Cfg) : S → S → Prop
  | refl (s : S) : Reach cfg s s
  | tail {s t u : S} {outs : List Event} :
      Reach cfg s t → step cfg t = .cont outs u → Reach cfg s u

/-- The whole program after argument parsing succeeded and the file opened:
`main` computes `line_words = LINE_BYTES / word_size` first, which in Rust
panics (division by zero) when `word_size = 0` — modelled as `none` — before
any byte of input is read; otherwise the `**` seek marker (when an offset was
given) is followed by the loop's output. -/
def mainModel (wordSize : Nat) (skipZero : Bool) (limit : Nat)
    (seekPos : Option Nat) (file : List Nat) (fuel : Nat) :
    Option (List Event) :=
  if wordSize = 0 then none
  else some ((match seekPos with | some _ => [Event.dstar] | none => []) ++
    (runLoop { wordSize := wordSize, skipZero := skipZero, limit := limit }
      fuel (initState (seekPos.getD 0) file)).1)

/-- Value of one digit character under `radix` (Rust `char::to_digit`, the
digit test of `from_str_radix`): `0`–`9`, then `a`–`z` / `A`–`Z` from 10,
accepted only when below the radix. -/
def digitVal (radix : Nat) (c : Char) : Option Nat :=
  let v : Nat :=
    if '0' ≤ c ∧ c ≤ '9' then c.toNat - 48
    else if 'a' ≤ c ∧ c ≤ 'z' then c.toNat - 87
    else if 'A' ≤ c ∧ c ≤ 'Z' then c.toNat - 55
    else radix
  if v < radix then some v else none

/-- Rust `u64::from_str_radix`: an optional leading `+`, then a nonempty run
of digits of the radix; errors (here `none`) on an empty digit run, an
invalid digit, or overflow past `u64::MAX`.  The accumulated value grows
monotonically, so checking `< 2^64` on the final value is equivalent to
Rust's per-step checked arithmetic. -/
def fromStrRadix (radix : Nat) (cs : List Char) : Option Nat :=
  let ds := match cs with | '+' :: rest => rest | _ => cs
  if ds = [] then none
  else
    (ds.foldl (fun acc c =>
      acc.bind fun a => (digitVal radix c).map fun d => a * radix + d)
      (some 0)).bind fun v => if v < 2 ^ 64 then some v else none

/-- `s.trim_start_matches("0x")`: strip every leading occurrence of `0x`. -/
def trim0x : List Char → List Char
  | '0' :: 'x' :: rest => trim0x rest
  | l => l

/-- `as_u64`: strings starting with `0x` are parsed as hexadecimal after
stripping the leading `0x` occurrences, every other string as decimal. -/
def as_u64 (s : String) : Option Nat :=
  match s.data with
  | '0' :: 'x' :: _ => fromStrRadix 16 (trim0x s.data)
  | _ => fromStrRadix 10 s.data

/-- Exit behaviour of `main` past the successful `File::open`: the offset
argument, when present, is parsed (`exit(3)` on failure) and then the seek is
attempted (`exit(3)` on failure); `0` stands for reaching the read loop. -/
def exitAfterOpen (offsetArg : Option String) (seekOk : Bool) : Nat :=
  match offsetArg with
  | some s => if (as_u64 s).isNone then 3 else if seekOk then 0 else 3
  | none => 0

/-- Exit behaviour of `main` past the limit parse: `File::open` failure exits
with code 2, otherwise the offset/seek stage decides. -/
def exitAfterLimit (openOk : Bool) (offsetArg : Option String) (seekOk : Bool) :
    Nat :=
  if openOk then exitAfterOpen offsetArg seekOk else 2

/-- Exit code of `main` as a function of the argument strings and of whether
the open and seek system calls succeed, following the order of `main`: the
limit argument is parsed first (`exit(3)` on failure), then the file is
opened (`exit(2)` on failure), then the offset argument is parsed and the
seek attempted (`exit(3)` on failure); `0` stands for reaching the read
loop (the loop itself never exits nonzero). -/
def mainExit (limitArg : Option String) (openOk : Bool)
    (offsetArg : Option String) (seekOk : Bool) : Nat :=
  match limitArg with
  | some s => if (as_u64 s).isNone then 3 else exitAfterLimit openOk offsetArg seekOk
  | none => exitAfterLimit openOk offsetArg seekOk

/-- The two output streams of the process. -/
inductive Chan where
  | out
  | err
deriving DecidableEq, Repr

/-- The diagnostic messages `main` can emit. -/
inductive DiagKind where
  /-- `could not open … : …` (File::open failed). -/
  | openFail
  /-- `invalid limit value …`. -/
  | limitParseFail
  /-- `invalid offset value …`. -/
  | offsetParseFail
  /-- `could not seek to pos …`. -/
  | seekFail
  /-- `while reading bufer: …`. -/
  | readFail
deriving DecidableEq, Repr

/-- The stream each diagnostic is sent to, read off the macro used at its
site in `main`: the open failure uses `println!` (standard output), every
other diagnostic uses `eprintln!` (standard error). -/
def diagChannel : DiagKind → Chan
  | .openFail => .out
  | .limitParseFail => .err
  | .offsetParseFail => .err
  | .seekFail => .err
  | .readFail => .err

/-- Whether an iteration printed a rendered data line. -/
def rendersLine (r : StepRes) : Bool :=
  (outsOf r).any fun e => match e with | .line _ => true | _ => false

/-- `all_zero` holds exactly when every byte of the slice is zero. -/
theorem all_zero_iff (l : List Nat) : all_zero l = true ↔ ∀ b ∈ l, b = 0 := by
  simp [all_zero, List.findIdx?_eq_none_iff]

/-- A read never changes the buffer's length. -/
theorem afterRead_length (s : S) : (afterRead s).length = s.buffer.length := by
  unfold afterRead readN
  rw [List.length_append, List.length_take, List.length_drop]
  omega

/-- With the limit off or the offset at most the limit, an empty read leaves
the displayed count at zero (when the offset sits exactly on the limit the
truncation itself yields `limit - offset = 0`). -/
theorem truncN_zero_of_stream_nil (cfg : Cfg) (s : S) (hs : s.stream = [])
    (hok : cfg.limit = 0 ∨ s.offset ≤ cfg.limit) : truncN cfg s = 0 := by
  have hr : readN s = 0 := by simp [readN, hs]
  unfold truncN
  rw [hr]
  split
  · rename_i h
    rcases hok with h0 | hle
    · exact absurd h0 h.1
    · omega
  · rfl

/-- The offset a `cont` step leaves behind. -/
theorem cont_offset (cfg : Cfg) (s : S) (outs : List Event) (t : S)
    (h : step cfg s = .cont outs t) : t.offset = s.offset + truncN cfg s := by
  unfold step at h
  split at h
  · cases h
  · split at h
    · cases h
      rfl
    · dsimp only at h
      repeat' split at h
      all_goals cases h
      all_goals rfl

/-- Truncation keeps the offset at or below a nonzero limit. -/
theorem offset_add_truncN_le (cfg : Cfg) (s : S) (hlim : cfg.limit ≠ 0)
    (hle : s.offset ≤ cfg.limit) : s.offset + truncN cfg s ≤ cfg.limit := by
  unfold truncN
  split <;> omega

/-- Shape of an iteration that elides its window. -/
theorem step_elide (cfg : Cfg) (s : S) (hwin : ¬(readN s = 0 ∧ s.skipped = 0))
    (hel : elideCond cfg s = true) :
    step cfg s = .cont []
      { stream := s.stream.drop (readN s)
        buffer := afterRead s
        offset := s.offset + truncN cfg s
        lastAllZero := s.lastAllZero
        skipped := s.skipped + 1 } := by
  rw [step, if_neg hwin]
  simp only [hel, if_true]

/-- Shape of an iteration that renders its window: an owed `*` marker, the
line built from the window, and either a `**`-then-break when the offset has
landed on the limit or a continuation with `skipped_lines = 0`. -/
theorem step_print (cfg : Cfg) (s : S) (hwin : ¬(readN s = 0 ∧ s.skipped = 0))
    (hnel : elideCond cfg s = false) :
    step cfg s =
      (if s.offset + truncN cfg s = cfg.limit then
        .halt ((if 0 < s.skipped then [Event.star] else []) ++
          [Event.line (build_line (s.offset + truncN cfg s) (afterRead s)
            (truncN cfg s) cfg.wordSize (hex_length_of cfg.wordSize)),
           Event.dstar])
      else
        .cont ((if 0 < s.skipped then [Event.star] else []) ++
          [Event.line (build_line (s.offset + truncN cfg s) (afterRead s)
            (truncN cfg s) cfg.wordSize (hex_length_of cfg.wordSize))])
          { stream := s.stream.drop (readN s)
            buffer := afterRead s
            offset := s.offset + truncN cfg s
            lastAllZero := cfg.skipZero && all_zero (afterRead s)
            skipped := 0 }) := by
  rw [step, if_neg hwin]
  simp only [hnel, Bool.false_eq_true, if_false]

/-- The elision guard, unfolded to the spec's reading: suppression enabled,
every valid byte of the window zero, previous window all-zero, window
full-width.  (When the guard fires, `n` equals the full 16-byte buffer
length, so `all_zero` over the whole buffer coincides with `all_zero` over
the `n` valid bytes.) -/
theorem elideCond_iff (cfg : Cfg) (s : S) (hbuf : s.buffer.length = 16) :
    elideCond cfg s = true ↔
      (cfg.skipZero = true ∧
        (∀ b ∈ (afterRead s).take (truncN cfg s), b = 0) ∧
        s.lastAllZero = true ∧ truncN cfg s = 16) := by
  have hlen : (afterRead s).length = 16 := (afterRead_length s).trans hbuf
  constructor
  · intro h
    unfold elideCond at h
    simp only [Bool.and_eq_true, beq_iff_eq] at h
    obtain ⟨⟨⟨hsk, hz⟩, hl⟩, hn⟩ := h
    refine ⟨hsk, ?_, hl, hn.trans hlen⟩
    intro b hb
    exact (all_zero_iff _).1 hz b (List.mem_of_mem_take hb)
  · rintro ⟨hsk, hz, hl, hn⟩
    have htake : (afterRead s).take (truncN cfg s) = afterRead s := by
      rw [hn, ← hlen]
      exact List.take_length _
    have hz2 : all_zero (afterRead s) = true := by
      rw [all_zero_iff]
      intro b hb
      exact hz b (by rw [htake]; exact hb)
    unfold elideCond
    simp [hsk, hz2, hl, hn, hlen]

theorem strConcat_cons (a : String) (l : List String) :
    strConcat (a :: l) = a ++ strConcat l := rfl

theorem mk_append (a b : List Char) :
    String.mk a ++ String.mk b = String.mk (a ++ b) := rfl

/-- Concatenating the ASCII renderings of the word chunks yields the byte-wise
ASCII rendering of the whole slice. -/
theorem chunksCore_ascii (ws : Nat) (hws : ws ≠ 0) :
    ∀ (fuel : Nat) (l : List Nat), l.length ≤ fuel →
      strConcat ((chunksCore ws fuel l).map word_as_ascii) =
        String.mk (l.map asciiChar)
  | 0, l, hl => by
    have h : l = [] := List.eq_nil_of_length_eq_zero (Nat.le_zero.1 hl)
    subst h
    rfl
  | fuel + 1, l, hl => by
    cases l with
    | nil => rfl
    | cons x xs =>
      rw [chunksCore, List.map_cons, strConcat_cons,
        chunksCore_ascii ws hws fuel ((x :: xs).drop ws)
          (by rw [List.length_drop]; simp at hl ⊢; omega)]
      unfold word_as_ascii
      rw [mk_append, ← List.map_append, List.take_append_drop]
      simp

/-- The ASCII field of `build_line` is the byte-wise rendering of the `n`
valid bytes. -/
theorem build_line_ascii (e : Nat) (buf : List Nat) (n ws hl : Nat)
    (hws : ws ≠ 0) :
    (build_line e buf n ws hl).ascii =
      String.mk ((buf.take n).map asciiChar) := by
  unfold build_line chunks
  dsimp only
  rw [if_neg hws]
  exact chunksCore_ascii ws hws (buf.take n).length (buf.take n) le_rfl

/-- C1: an incoming window (a nonempty read, or the zero-byte window that a
pending elision run forces at end-of-stream) produces no rendered line if and
only if zero-suppression is enabled, every one of its `n` valid bytes is
`0x00`, the previous window was also all-zero, and the window is full-width
(`n = 16`); in particular partial windows are never elided. -/
theorem c1_elision_iff (cfg : Cfg) (s : S)
    (hbuf : s.buffer.length = 16)
    (hwin : readN s ≠ 0 ∨ s.skipped ≠ 0)
    (_hok : cfg.limit = 0 ∨ s.offset ≤ cfg.limit) :
    rendersLine (step cfg s) = false ↔
      (cfg.skipZero = true ∧
        (∀ b ∈ (afterRead s).take (truncN cfg s), b = 0) ∧
        s.lastAllZero = true ∧ truncN cfg s = 16) := by
  have hwin' : ¬(readN s = 0 ∧ s.skipped = 0) := by
    rintro ⟨h1, h2⟩
    rcases hwin with h | h <;> contradiction
  rw [← elideCond_iff cfg s hbuf]
  by_cases hel : elideCond cfg s = true
  · rw [step_elide cfg s hwin' hel]
    simp [rendersLine, outsOf, hel]
  · have hel' : elideCond cfg s = false := by
      cases h : elideCond cfg s
      · rfl
      · exact absurd h hel
    have hr : rendersLine (step cfg s) = true := by
      rw [step_print cfg s hwin' hel']
      by_cases hofl : s.offset + truncN cfg s = cfg.limit <;>
        by_cases hsk : 0 < s.skipped <;>
          simp [hofl, hsk, rendersLine, outsOf]
    rw [hr]
    simp [hel']

/-- C1 witness: a second consecutive all-zero full window, with suppression
enabled, is elided. -/
theorem c1_elision_iff_witness :
    rendersLine (step ⟨1, true, 0⟩
      ⟨List.replicate 16 0, List.replicate 16 0, 16, true, 0⟩) = false :=
  (c1_elision_iff ⟨1, true, 0⟩
    ⟨List.replicate 16 0, List.replicate 16 0, 16, true, 0⟩
    (by decide) (by decide) (by decide)).mpr (by decide)

/-- C2: whenever a window is rendered while `skipped_lines > 0`, a single `*`
marker is emitted first and the counter is reset; and on a file of three full
all-zero windows followed by one non-zero window (suppression on) the data
output is exactly the line for window 1, one `*`, and the line for window 4. -/
theorem c2_star_marker :
    (∀ (cfg : Cfg) (s : S),
      (readN s ≠ 0 ∨ s.skipped ≠ 0) →
      elideCond cfg s = false →
      0 < s.skipped →
      outsOf (step cfg s) =
        Event.star ::
          Event.line (build_line (s.offset + truncN cfg s) (afterRead s)
            (truncN cfg s) cfg.wordSize (hex_length_of cfg.wordSize)) ::
          (if s.offset + truncN cfg s = cfg.limit then [Event.dstar] else []) ∧
      (∀ (outs : List Event) (t : S), step cfg s = .cont outs t →
        t.skipped = 0)) ∧
    runLoop ⟨1, true, 0⟩ 6
        (initState 0 (List.replicate 48 0 ++ List.replicate 16 65)) =
      ([Event.line (build_line 16 (List.replicate 16 0) 16 1 48),
        Event.star,
        Event.line (build_line 64 (List.replicate 16 65) 16 1 48)], true) := by
  constructor
  · intro cfg s hwin hnel hsk
    have hwin' : ¬(readN s = 0 ∧ s.skipped = 0) := by
      rintro ⟨h1, h2⟩
      rcases hwin with h | h <;> contradiction
    have hp := step_print cfg s hwin' hnel
    constructor
    · rw [hp]
      by_cases hofl : s.offset + truncN cfg s = cfg.limit <;>
        simp [hofl, hsk, outsOf]
    · intro outs t ht
      rw [hp] at ht
      by_cases hofl : s.offset + truncN cfg s = cfg.limit
      · rw [if_pos hofl] at ht
        cases ht
      · rw [if_neg hofl] at ht
        cases ht
        rfl
  · decide

/-- C2 witness: a pending elision run (two skipped windows) flushed by a
non-zero window prints the `*` marker and then the window's line. -/
theorem c2_star_marker_witness :
    outsOf (step ⟨1, true, 0⟩
        ⟨List.replicate 16 65, List.replicate 16 0, 48, true, 2⟩) =
      [Event.star, Event.line (build_line 64 (List.replicate 16 65) 16 1 48)] := by
  have h := (c2_star_marker.1 ⟨1, true, 0⟩
    ⟨List.replicate 16 65, List.replicate 16 0, 48, true, 2⟩
    (by decide) (by decide) (by decide)).1
  exact h.trans (by decide)

/-- C3 as stated is false: the claim quantifies over every starting seek
offset, but a seek past the limit starts the run with the cumulative offset
already above the limit (here `-o 16 -l 8` on a 4-byte file: the initial
loop state, reached before any window, has offset 16 > 8). -/
theorem c3_counterexample :
    Reach ⟨1, true, 8⟩ (initState 16 (List.replicate 4 0))
        (initState 16 (List.replicate 4 0)) ∧
      (⟨1, true, 8⟩ : Cfg).limit < (initState 16 (List.replicate 4 0)).offset :=
  ⟨Reach.refl _, by decide⟩

/-- C3 amended: when a nonzero limit is set and the starting offset does not
exceed it, the cumulative offset never exceeds the limit at any reachable
point of the run; and whenever a read projects at or past the limit, the
window is truncated to exactly `limit - offset_before_read` valid bytes so
that the offset lands exactly on the limit. -/
theorem c3_offset_le_limit (cfg : Cfg) (s0 s : S)
    (hlim : cfg.limit ≠ 0) (h0 : s0.offset ≤ cfg.limit)
    (hr : Reach cfg s0 s) :
    s.offset ≤ cfg.limit ∧
      (cfg.limit ≤ s.offset + readN s →
        truncN cfg s = cfg.limit - s.offset ∧
          s.offset + truncN cfg s = cfg.limit) := by
  induction hr with
  | refl =>
    refine ⟨h0, fun hproj => ?_⟩
    have ht : truncN cfg s0 = cfg.limit - s0.offset := by
      unfold truncN
      rw [if_pos ⟨hlim, hproj⟩]
    exact ⟨ht, by rw [ht]; omega⟩
  | tail hr hstep ih =>
    rename_i t u outs
    have hle : u.offset ≤ cfg.limit := by
      rw [cont_offset cfg t outs u hstep]
      exact offset_add_truncN_le cfg t hlim ih.1
    refine ⟨hle, fun hproj => ?_⟩
    have ht : truncN cfg u = cfg.limit - u.offset := by
      unfold truncN
      rw [if_pos ⟨hlim, hproj⟩]
    exact ⟨ht, by rw [ht]; omega⟩

/-- C3 witness: with limit 8 and a start at offset 0, the initial state obeys
the invariant and its first read is truncated to exactly 8 valid bytes. -/
theorem c3_offset_le_limit_witness :
    (initState 0 (List.replicate 16 1)).offset ≤ (8 : Nat) ∧
      ((8 : Nat) ≤ (initState 0 (List.replicate 16 1)).offset +
          readN (initState 0 (List.replicate 16 1)) →
        truncN ⟨1, true, 8⟩ (initState 0 (List.replicate 16 1)) =
            8 - (initState 0 (List.replicate 16 1)).offset ∧
          (initState 0 (List.replicate 16 1)).offset +
              truncN ⟨1, true, 8⟩ (initState 0 (List.replicate 16 1)) = 8) :=
  c3_offset_le_limit ⟨1, true, 8⟩ (initState 0 (List.replicate 16 1))
    (initState 0 (List.replicate 16 1)) (by decide) (by decide)
    (Reach.refl _)

/-- C4 as stated is false: with `limit = 16` on a 16-byte file the limit is
reached exactly at the natural end of the stream (the whole 16-byte file is
consumed by the one read), not strictly before it, yet the trailing `**`
marker is still emitted after the last data line. -/
theorem c4_counterexample :
    runLoop ⟨1, true, 16⟩ 2 (initState 0 (List.replicate 16 65)) =
      ([Event.line (build_line 16 (List.replicate 16 65) 16 1 48),
        Event.dstar], true) ∧
      (initState 0 (List.replicate 16 65)).stream.length =
        (⟨1, true, 16⟩ : Cfg).limit := by
  decide

/-- C4 amended: when a nonzero limit is configured, the `**` marker is
emitted by an iteration exactly when that iteration renders a line and its
cumulative offset lands exactly on the limit — which may coincide with the
natural end of the stream; with `limit = 8` on a 16-byte file, the output is
the single truncated line covering bytes 0–7 followed by `**`, and the loop
halts without reading a further window. -/
theorem c4_dstar_iff :
    (∀ (cfg : Cfg) (s : S), cfg.limit ≠ 0 →
      (readN s ≠ 0 ∨ s.skipped ≠ 0) →
      (Event.dstar ∈ outsOf (step cfg s) ↔
        elideCond cfg s = false ∧
          s.offset + truncN cfg s = cfg.limit)) ∧
    runLoop ⟨1, true, 8⟩ 2 (initState 0 (List.range 16)) =
      ([Event.line (build_line 8 (List.range 16) 8 1 48), Event.dstar],
        true) ∧
    (build_line 8 (List.range 16) 8 1 48).start_offset = 0 ∧
    (build_line 8 (List.range 16) 8 1 48).hex =
      "00 01 02 03 04 05 06 07 " := by
  refine ⟨?_, by decide, by decide, by decide⟩
  intro cfg s hlim hwin
  have hwin' : ¬(readN s = 0 ∧ s.skipped = 0) := by
    rintro ⟨h1, h2⟩
    rcases hwin with h | h <;> contradiction
  by_cases hel : elideCond cfg s = true
  · rw [step_elide cfg s hwin' hel]
    simp [outsOf, hel]
  · have hel' : elideCond cfg s = false := by
      cases h : elideCond cfg s
      · rfl
      · exact absurd h hel
    rw [step_print cfg s hwin' hel']
    by_cases hofl : s.offset + truncN cfg s = cfg.limit <;>
      by_cases hsk : 0 < s.skipped <;>
        simp [hofl, hsk, outsOf, hel']

/-- C4 witness: a state one full window short of the limit renders a line and
emits the `**` marker. -/
theorem c4_dstar_iff_witness :
    Event.dstar ∈ outsOf (step ⟨1, true, 16⟩
      ⟨List.replicate 16 65, List.replicate 16 0, 0, false, 0⟩) :=
  (c4_dstar_iff.1 ⟨1, true, 16⟩
    ⟨List.replicate 16 65, List.replicate 16 0, 0, false, 0⟩
    (by decide) (by decide)).mpr (by decide)

/-- C5: on the 16-byte file `00 01 … 0f` with `word_size = 2` and no offset
or limit, the program emits exactly one data line: offset field `00000000`,
hex field `0001 0203 0405 0607 0809 0a0b 0c0d 0e0f ` (with the trailing
space, already at the fixed width `hex_length = word_size*2*words_per_line +
words_per_line = 40`), ASCII field sixteen dots, rendered in the shape
`offset, two spaces, padded hex, space, pipe-wrapped ASCII`. -/
theorem c5_sixteen_byte_scenario :
    runLoop ⟨2, true, 0⟩ 2 (initState 0 (List.range 16)) =
      ([Event.line (build_line 16 (List.range 16) 16 2 (hex_length_of 2))],
        true) ∧
    hex_length_of 2 = 40 ∧
    (build_line 16 (List.range 16) 16 2 (hex_length_of 2)).hex =
      "0001 0203 0405 0607 0809 0a0b 0c0d 0e0f " ∧
    (build_line 16 (List.range 16) 16 2 (hex_length_of 2)).hex.length = 40 ∧
    (build_line 16 (List.range 16) 16 2 (hex_length_of 2)).ascii =
      "................" ∧
    (build_line 16 (List.range 16) 16 2 (hex_length_of 2)).start_offset = 0 ∧
    (build_line 16 (List.range 16) 16 2 (hex_length_of 2)).render =
      "00000000  0001 0203 0405 0607 0809 0a0b 0c0d 0e0f  |................|" := by
  decide

/-- C6: for every window, ASCII field character `i` is byte `i` itself as a
character exactly when the byte lies in `[0x20, 0x7e]` and `.` otherwise,
one character per valid byte — the field has length `n` and is never
padded. -/
theorem c6_ascii_field (buf : List Nat) (e n ws hl : Nat)
    (hws : ws ≠ 0) (hn : n ≤ buf.length) :
    (build_line e buf n ws hl).ascii =
      String.mk ((buf.take n).map fun b =>
        if 0x20 ≤ b ∧ b ≤ 0x7e then Char.ofNat b else '.') ∧
    (build_line e buf n ws hl).ascii.length = n := by
  have hchar : asciiChar = fun b : Nat =>
      if 0x20 ≤ b ∧ b ≤ 0x7e then Char.ofNat b else '.' := by
    funext b
    unfold asciiChar
    by_cases hb : 0x20 ≤ b ∧ b < 0x7f
    · rw [if_pos hb, if_pos ⟨hb.1, by omega⟩]
    · rw [if_neg hb, if_neg (fun hc => hb ⟨hc.1, by omega⟩)]
  have ha := build_line_ascii e buf n ws hl hws
  constructor
  · rw [ha, hchar]
  · rw [ha]
    show ((buf.take n).map asciiChar).length = n
    rw [List.length_map, List.length_take]
    omega

/-- C6 witness: a printable byte (0x41) renders as `A`, a non-printable one
(0x00) as `.`, and the field length equals the valid byte count. -/
theorem c6_ascii_field_witness :
    (build_line 2 [65, 0] 2 1 48).ascii =
      String.mk (([65, 0] : List Nat).take 2 |>.map fun b =>
        if 0x20 ≤ b ∧ b ≤ 0x7e then Char.ofNat b else '.') ∧
    (build_line 2 [65, 0] 2 1 48).ascii.length = 2 :=
  c6_ascii_field [65, 0] 2 2 1 48 (by decide) (by decide)

/-- Behaviour of the offset-parse / seek stage of `main`. -/
theorem exitAfterOpen_spec (offsetArg : Option String) (seekOk : Bool) :
    (exitAfterOpen offsetArg seekOk = 0 ∨
      exitAfterOpen offsetArg seekOk = 3) ∧
    (exitAfterOpen offsetArg seekOk = 0 ↔
      ((∀ str ∈ offsetArg, (as_u64 str).isSome = true) ∧
        (offsetArg = none ∨ seekOk = true))) ∧
    (exitAfterOpen offsetArg seekOk = 3 ↔
      (¬(∀ str ∈ offsetArg, (as_u64 str).isSome = true) ∨
        ((∀ str ∈ offsetArg, (as_u64 str).isSome = true) ∧
          offsetArg ≠ none ∧ seekOk = false))) := by
  cases offsetArg with
  | none => simp [exitAfterOpen]
  | some s =>
    cases hs : as_u64 s with
    | none => cases seekOk <;> simp [exitAfterOpen, hs]
    | some v => cases seekOk <;> simp [exitAfterOpen, hs]

/-- Behaviour of the open / offset / seek stages of `main`. -/
theorem exitAfterLimit_spec (openOk : Bool) (offsetArg : Option String)
    (seekOk : Bool) :
    (exitAfterLimit openOk offsetArg seekOk = 0 ↔
      (openOk = true ∧ (∀ str ∈ offsetArg, (as_u64 str).isSome = true) ∧
        (offsetArg = none ∨ seekOk = true))) ∧
    (exitAfterLimit openOk offsetArg seekOk = 2 ↔ openOk = false) ∧
    (exitAfterLimit openOk offsetArg seekOk = 3 ↔
      (openOk = true ∧
        (¬(∀ str ∈ offsetArg, (as_u64 str).isSome = true) ∨
          ((∀ str ∈ offsetArg, (as_u64 str).isSome = true) ∧
            offsetArg ≠ none ∧ seekOk = false)))) := by
  have h := exitAfterOpen_spec offsetArg seekOk
  cases openOk with
  | false => simp [exitAfterLimit]
  | true =>
    simp only [exitAfterLimit, if_true]
    refine ⟨by rw [h.2.1]; simp, ?_, by rw [h.2.2]; simp⟩
    simp only [Bool.true_eq_false, iff_false]
    rcases h.1 with h0 | h3 <;> omega

/-- C7 as stated is false: the failure conditions overlap, and the code
resolves the overlap by order of checking, not by the claim's biconditionals.
With an unparsable limit argument and an un-openable file, the process exits
3 (the limit is parsed before the open is attempted), although "the input
file cannot be opened" would require exit code 2 under the claim. -/
theorem c7_counterexample :
    mainExit (some "zz") false none true = 3 ∧
      mainExit (some "zz") false none true ≠ 2 := by
  decide

/-- C7 amended: the exit code is always 0, 2 or 3, and the stages are checked
in program order — 3 when the limit argument fails to parse; otherwise 2 when
the file cannot be opened; otherwise 3 when the offset argument fails to
parse or the seek fails; 0 (success path, the read loop is reached) when all
stages pass. -/
theorem c7_exit_codes (limitArg : Option String) (openOk : Bool)
    (offsetArg : Option String) (seekOk : Bool) :
    (mainExit limitArg openOk offsetArg seekOk = 0 ∨
      mainExit limitArg openOk offsetArg seekOk = 2 ∨
      mainExit limitArg openOk offsetArg seekOk = 3) ∧
    (mainExit limitArg openOk offsetArg seekOk = 0 ↔
      ((∀ str ∈ limitArg, (as_u64 str).isSome = true) ∧ openOk = true ∧
        (∀ str ∈ offsetArg, (as_u64 str).isSome = true) ∧
        (offsetArg = none ∨ seekOk = true))) ∧
    (mainExit limitArg openOk offsetArg seekOk = 2 ↔
      ((∀ str ∈ limitArg, (as_u64 str).isSome = true) ∧ openOk = false)) ∧
    (mainExit limitArg openOk offsetArg seekOk = 3 ↔
      (¬(∀ str ∈ limitArg, (as_u64 str).isSome = true) ∨
        ((∀ str ∈ limitArg, (as_u64 str).isSome = true) ∧ openOk = true ∧
          (¬(∀ str ∈ offsetArg, (as_u64 str).isSome = true) ∨
            ((∀ str ∈ offsetArg, (as_u64 str).isSome = true) ∧
              offsetArg ≠ none ∧ seekOk = false))))) := by
  have hl := exitAfterLimit_spec openOk offsetArg seekOk
  have hlt : exitAfterLimit openOk offsetArg seekOk = 0 ∨
      exitAfterLimit openOk offsetArg seekOk = 2 ∨
      exitAfterLimit openOk offsetArg seekOk = 3 := by
    unfold exitAfterLimit
    cases openOk with
    | false => simp
    | true =>
      rcases (exitAfterOpen_spec offsetArg seekOk).1 with h | h <;>
        simp [h]
  cases limitArg with
  | none =>
    have hm : mainExit none openOk offsetArg seekOk =
        exitAfterLimit openOk offsetArg seekOk := rfl
    rw [hm]
    refine ⟨hlt, ?_, ?_, ?_⟩
    · rw [hl.1]
      simp
    · rw [hl.2.1]
      simp
    · rw [hl.2.2]
      simp
  | some s =>
    cases hs : as_u64 s with
    | none => simp [mainExit, hs]
    | some v =>
      have hss : ∀ str ∈ some s, (as_u64 str).isSome = true := by
        intro str hstr
        cases hstr
        rw [hs]
        rfl
      have hm : mainExit (some s) openOk offsetArg seekOk =
          exitAfterLimit openOk offsetArg seekOk := by
        simp [mainExit, hs]
      rw [hm]
      refine ⟨hlt, ?_, ?_, ?_⟩
      · rw [hl.1]
        simp [hss]
      · rw [hl.2.1]
        simp [hss]
      · rw [hl.2.2]
        simp [hss]

/-- C7 witness: all stages passing reaches the read loop (exit code 0). -/
theorem c7_exit_codes_witness : mainExit none true none true = 0 :=
  (c7_exit_codes none true none true).2.1.mpr (by simp)

/-- C8 (code defect): `main` prints the open-failure diagnostic with
`println!` — standard output — while the claim (and the spec) require every
diagnostic on the error stream; the other four diagnostics do use
`eprintln!`. -/
theorem c8_open_diag_on_stdout :
    diagChannel DiagKind.openFail = Chan.out ∧
      Chan.out ≠ Chan.err ∧
      diagChannel DiagKind.limitParseFail = Chan.err ∧
      diagChannel DiagKind.offsetParseFail = Chan.err ∧
      diagChannel DiagKind.seekFail = Chan.err ∧
      diagChannel DiagKind.readFail = Chan.err := by
  decide

/-- C9: `line_words = LINE_BYTES / word_size` and `hex_length` are computed
by unguarded integer division before anything else: with `word_size = 0` the
program panics (modelled as `none`) before reading any input, whatever the
other arguments and the file are; and nothing checks divisibility — the
non-divisor `word_size = 3` yields `line_words = 5`, `hex_length = 35` and
the program happily runs. -/
theorem c9_unguarded_division :
    (∀ (skipZero : Bool) (limit : Nat) (seekPos : Option Nat)
        (file : List Nat) (fuel : Nat),
      mainModel 0 skipZero limit seekPos file fuel = none) ∧
    ¬(3 ∣ LINE_BYTES) ∧
    line_words 3 = 5 ∧
    hex_length_of 3 = 35 ∧
    mainModel 3 true 0 none [1, 2, 3, 4] 2 =
      some [Event.line
        (build_line 4 ([1, 2, 3, 4] ++ List.replicate 12 0) 4 3 35)] := by
  refine ⟨?_, by decide, by decide, by decide, by decide⟩
  intro skipZero limit seekPos file fuel
  simp [mainModel]

/-- C9 witness: with `word_size = 0` the run is a panic producing no output,
before any input is consumed. -/
theorem c9_unguarded_division_witness :
    mainModel 0 true 0 none [1, 2, 3] 5 = none :=
  c9_unguarded_division.1 true 0 none [1, 2, 3] 5

/-- A window of zero valid bytes renders with empty hex and ASCII fields and
its start offset equal to the end offset. -/
theorem build_line_zero (e : Nat) (buf : List Nat) (ws hl : Nat) :
    build_line e buf 0 ws hl = ⟨"", "", e, hl⟩ := by
  unfold build_line chunks
  split <;> rfl

/-- C10 as stated is false on a reachable input: with `limit = 32` on a
32-zero-byte file, the loop reaches end-of-stream with an elision run pending
(`skipped_lines = 1`, two `cont` steps from the initial state), and that very
iteration prints `*`, the empty data line at offset 32, and `**`, then halts
— it does not terminate on a next zero-byte read, because the final offset
sits exactly on the limit and the `offset == limit` break fires first. -/
theorem c10_counterexample :
    Reach ⟨1, true, 32⟩ (initState 0 (List.replicate 32 0))
        ⟨[], List.replicate 16 0, 32, true, 1⟩ ∧
      step ⟨1, true, 32⟩ ⟨[], List.replicate 16 0, 32, true, 1⟩ =
        .halt [Event.star,
          Event.line (build_line 32 (List.replicate 16 0) 0 1 48),
          Event.dstar] := by
  constructor
  · have h1 : step ⟨1, true, 32⟩ (initState 0 (List.replicate 32 0)) =
        .cont [Event.line (build_line 16 (List.replicate 16 0) 16 1 48)]
          ⟨List.replicate 16 0, List.replicate 16 0, 16, true, 0⟩ := by
      decide
    have h2 : step ⟨1, true, 32⟩
        ⟨List.replicate 16 0, List.replicate 16 0, 16, true, 0⟩ =
        .cont [] ⟨[], List.replicate 16 0, 32, true, 1⟩ := by
      decide
    exact Reach.tail (Reach.tail (Reach.refl _) h1) h2
  · decide

/-- C10 amended: at end-of-stream with an elision run pending
(`skipped_lines > 0`), the iteration prints `*` and then one more data line
with zero valid bytes — empty hex and ASCII fields, start offset equal to
the final cumulative offset; then, if that offset sits exactly on the
configured limit, the same iteration prints `**` and halts, and otherwise
the loop terminates on the next, empty read. -/
theorem c10_eof_flush (cfg : Cfg) (s : S)
    (hbuf : s.buffer.length = 16)
    (hstream : s.stream = [])
    (hsk : 0 < s.skipped)
    (hok : cfg.limit = 0 ∨ s.offset ≤ cfg.limit) :
    (build_line s.offset s.buffer 0 cfg.wordSize
      (hex_length_of cfg.wordSize)).hex = "" ∧
    (build_line s.offset s.buffer 0 cfg.wordSize
      (hex_length_of cfg.wordSize)).ascii = "" ∧
    (build_line s.offset s.buffer 0 cfg.wordSize
      (hex_length_of cfg.wordSize)).start_offset = s.offset ∧
    (if s.offset = cfg.limit then
      step cfg s = .halt [Event.star,
        Event.line (build_line s.offset s.buffer 0 cfg.wordSize
          (hex_length_of cfg.wordSize)),
        Event.dstar]
    else
      ∃ t : S, step cfg s =
          .cont [Event.star, Event.line (build_line s.offset s.buffer 0
            cfg.wordSize (hex_length_of cfg.wordSize))] t ∧
        step cfg t = .halt []) := by
  have hr : readN s = 0 := by simp [readN, hstream]
  have htr : truncN cfg s = 0 := truncN_zero_of_stream_nil cfg s hstream hok
  have hwin' : ¬(readN s = 0 ∧ s.skipped = 0) := by
    rintro ⟨h1, h2⟩
    omega
  have hbufA : afterRead s = s.buffer := by
    simp [afterRead, hr]
  have hel : elideCond cfg s = false := by
    unfold elideCond
    rw [htr, hbufA, hbuf]
    simp
  have hp := step_print cfg s hwin' hel
  rw [htr, hbufA, Nat.add_zero, if_pos hsk] at hp
  refine ⟨?_, ?_, ?_, ?_⟩
  · rw [build_line_zero]
  · rw [build_line_zero]
  · rw [build_line_zero]
  · by_cases hoff : s.offset = cfg.limit
    · rw [if_pos hoff, hp, if_pos hoff]
      rfl
    · rw [if_neg hoff]
      rw [if_neg hoff] at hp
      refine ⟨_, hp, ?_⟩
      rw [step]
      rw [if_pos ⟨by simp [readN, hstream], rfl⟩]

/-- C10 witness: end-of-stream after two elided all-zero windows (offset 48,
no limit) prints `*` and an empty data line at offset 48, then halts on the
next read. -/
theorem c10_eof_flush_witness :
    (build_line 48 (List.replicate 16 0) 0 1 (hex_length_of 1)).hex = "" ∧
    (build_line 48 (List.replicate 16 0) 0 1 (hex_length_of 1)).ascii = "" ∧
    (build_line 48 (List.replicate 16 0) 0 1
      (hex_length_of 1)).start_offset = 48 ∧
    (if (48 : Nat) = (0 : Nat) then
      step ⟨1, true, 0⟩ ⟨[], List.replicate 16 0, 48, true, 2⟩ =
        .halt [Event.star,
          Event.line (build_line 48 (List.replicate 16 0) 0 1
            (hex_length_of 1)),
          Event.dstar]
    else
      ∃ t : S, step ⟨1, true, 0⟩ ⟨[], List.replicate 16 0, 48, true, 2⟩ =
          .cont [Event.star, Event.line (build_line 48 (List.replicate 16 0)
            0 1 (hex_length_of 1))] t ∧
        step ⟨1, true, 0⟩ t = .halt []) :=
  c10_eof_flush ⟨1, true, 0⟩ ⟨[], List.replicate 16 0, 48, true, 2⟩
    (by decide) rfl (by decide) (Or.inl rfl)

end Rxdump
